import Mathlib

/-!
Shallow embedding of the PurrSQL plugin core: `clean_langchain_query` and
`extract_columns_from_query` from `helpers.py`, and the `query_database_data`
tool from `plugin.py`.

Python strings are modelled as lists of characters (`Str`).  External
collaborators (the language-model chains, `sqlparse.split`, the database
driver, the chat side channel and the langchain comma-separated output
parser) are modelled as oracle functions supplied through an environment
record; Python exceptions are modelled with `Except` and `Option`.
-/

/-- Python strings, modelled as lists of characters. -/
abbrev Str := List Char

namespace PurrSQL

/-- ASCII whitespace characters stripped by Python `str.strip`. -/
def isPySpace (c : Char) : Bool :=
  c == ' ' || c == '\t' || c == '\n' || c == '\r' || c == '\x0b' || c == '\x0c'

/-- Python `s.strip()`: drop whitespace from both ends. -/
def pyStrip (s : Str) : Str :=
  ((s.dropWhile isPySpace).reverse.dropWhile isPySpace).reverse

/-- Python `pat in s` (substring containment). -/
def strContains : Str → Str → Bool
  | [], pat => pat.isEmpty
  | x :: xs, pat => pat.isPrefixOf (x :: xs) || strContains xs pat

/-- Python `s.startswith(p)`. -/
def startsWith (s p : Str) : Bool := p.isPrefixOf s

/-- Worker for Python `str.split(sep)`: scans left to right, splitting at
leftmost non-overlapping occurrences of `sep`; `skip` counts separator
characters still to be consumed after a match. -/
def pySplitAux (sep : Str) : Str → Nat → List Str
  | [], _ => [[]]
  | _ :: xs, k + 1 => pySplitAux sep xs k
  | x :: xs, 0 =>
    if sep.isPrefixOf (x :: xs) then
      [] :: pySplitAux sep xs (sep.length - 1)
    else
      match pySplitAux sep xs 0 with
      | [] => [[x]]
      | h :: t => (x :: h) :: t

/-- Python `s.split(sep)` for a non-empty separator. -/
def pySplit (s sep : Str) : List Str := pySplitAux sep s 0

/-- Worker for Python `s.replace(old, new)`: scans left to right, replacing
leftmost non-overlapping occurrences of `old`. -/
def pyReplaceAux (old new : Str) : Str → Nat → Str
  | [], _ => []
  | _ :: xs, k + 1 => pyReplaceAux old new xs k
  | x :: xs, 0 =>
    if old.isPrefixOf (x :: xs) then
      new ++ pyReplaceAux old new xs (old.length - 1)
    else
      x :: pyReplaceAux old new xs 0

/-- Python `s.replace(old, new)` for a non-empty `old`. -/
def pyReplace (s old new : Str) : Str := pyReplaceAux old new s 0

/-- Python `s.lower()` (only ASCII letters occur in the inputs used here). -/
def pyLower (s : Str) : Str := s.map Char.toLower

/-- The backtick character. -/
def bq : Char := '\x60'

/-- The characters of the label name `SQLQuery` (without the separator). -/
def sqlQueryName : Str := ['S', 'Q', 'L', 'Q', 'u', 'e', 'r', 'y']

/-- The separator `": "` used by `query.split(": ")`. -/
def colonSep : Str := [':', ' ']

/-- The label `"SQLQuery: "`. -/
def sqlQueryLbl : Str := sqlQueryName ++ colonSep

/-- The markdown code fence marker, three backticks. -/
def fence : Str := [bq, bq, bq]

/-- The dialect tag token `"sql "`. -/
def sqlTag : Str := ['s', 'q', 'l', ' ']

/-- Step 1 of `clean_langchain_query`:
`if query.startswith("SQLQuery: "): query = query.split(": ")[1]`.
The Python indexing `[1]` is modelled in `Option`; `none` would be an
uncaught `IndexError`. -/
def labelStep (q : Str) : Option Str :=
  if startsWith q sqlQueryLbl then (pySplit q colonSep)[1]? else some q

/-- Step 2 of `clean_langchain_query`: `query = query.replace("\n", " ")`. -/
def newlineStep (q : Str) : Str := pyReplace q ['\n'] [' ']

/-- Step 3 of `clean_langchain_query`: `query = query.replace("```", "")`. -/
def fenceStep (q : Str) : Str := pyReplace q fence []

/-- Step 4 of `clean_langchain_query`:
`if "sql " in query: query = query.split("sql ")[1]`. -/
def dialectStep (q : Str) : Option Str :=
  if strContains q sqlTag then (pySplit q sqlTag)[1]? else some q

/-- `clean_langchain_query` from `helpers.py`, steps in source order with the
final `query.strip()`; an uncaught `IndexError` (`none`) propagates. -/
def cleanLangchainQuery (query : Str) : Option Str :=
  match labelStep query with
  | none => none
  | some q1 =>
    match dialectStep (fenceStep (newlineStep q1)) with
    | none => none
    | some q4 => some (pyStrip q4)

/-! ## Column inference (`extract_columns_from_query`, helpers.py) -/

/-- Statement kinds whose queries produce rows (the `query_types` list). -/
def queryTypes : List Str :=
  [("select").toList, ("show").toList, ("describe").toList,
   ("explain").toList, ("with").toList]

/-- The token `" returning "`. -/
def returningTok : Str := (" returning ").toList

/-- Fixed text of the column-extraction prompt, up to the interpolated
statement. -/
def colPromptText : Str :=
  ("You extract column names from SQL statements. If no proper column names can be extracted (e.g. due to use of wildcards), reply with \"\" to skip this step.\nGiven the following SQL statement, extract the column names and return them as a comma-separated list: ").toList

/-- The prompt `f"...: {sql_statement}"` sent to the model. -/
def colPrompt (sql_statement : Str) : Str := colPromptText ++ sql_statement

/-- A language-model capability: `llm.invoke(prompt).content`, which may
raise (`Except.error`) or return arbitrary content. -/
structure LLM where
  invoke : Str → Except Str Str

/-- An output parser oracle: `CommaSeparatedListOutputParser().parse`,
external langchain code that may raise. -/
abbrev ColParser := Str → Except Str (List Str)

/-- Observable outcome of `extract_columns_from_query`: the returned column
list, whether the model was invoked, and whether `log.error` was called. -/
structure ColResult where
  columns : List Str
  llmInvoked : Bool
  errLogged : Bool
deriving DecidableEq

/-- The row-producing test of `extract_columns_from_query`: the lowercased
statement starts with one of `query_types`, or contains `" returning "`. -/
def isRowProducing (sql_statement : Str) : Bool :=
  let query_lower := pyLower sql_statement
  queryTypes.any (fun qt => startsWith query_lower qt)
    || strContains query_lower returningTok

/-- `extract_columns_from_query(llm, sql_statement)` from `helpers.py`.
The `try`/`except` around the body is modelled by mapping every
`Except.error` of the oracles to the logged empty result. -/
def extractColumnsFromQuery (llm : LLM) (parse : ColParser)
    (sql_statement : Str) : ColResult :=
  if isRowProducing sql_statement then
    match llm.invoke (colPrompt sql_statement) with
    | .error _ => ⟨[], true, true⟩
    | .ok llm_output =>
      if llm_output.isEmpty then ⟨[], true, false⟩
      else
        match parse llm_output with
        | .ok cols => ⟨cols, true, false⟩
        | .error _ => ⟨[], true, true⟩
  else ⟨[], false, false⟩

/-! ## The orchestrator (`query_database_data`, plugin.py) -/

/-- The advisory returned when no database connection is configured. -/
def notConnectedMsg : Str :=
  ("Database is not connected. Please update the settings or ask \x27check the DB connection\x27 to do troubleshooting.").toList

/-- The advisory returned when splitting yields no statement. -/
def noValidMsg : Str := ("No valid query to execute").toList

/-- Message standing for the `IndexError` an unguarded `[1]` would raise. -/
def indexErrMsg : Str := ("IndexError: list index out of range").toList

/-- Keyword `BEGIN`. -/
def beginKw : Str := ("BEGIN").toList

/-- Keyword `COMMIT`. -/
def commitKw : Str := ("COMMIT").toList

/-- A statement survives the transaction-wrapper filter of the
multi-statement loop exactly when it starts with neither `BEGIN` nor
`COMMIT`. -/
def nonTx (s : Str) : Bool := !(startsWith s beginKw) && !(startsWith s commitKw)

/-- Environment of one `query_database_data` invocation: the global state
and the external collaborators, as oracles. -/
structure Env where
  dbConnected : Bool
  debuggerEnabled : Bool
  sendMsg : Except Str Unit
  gen : Except Str Str
  sqlSplit : Str → List Str
  run : Str → Except Str Str
  llm : LLM
  parse : ColParser

/-- Structured response value built before `json.dumps`. -/
inductive Resp
  | single (result : Str) (columns : List Str)
  | err (result : Str)
  | multi (items : List (Str × List Str))

/-- Escape of one character in a JSON string literal (the cases
`json.dumps` escapes for this payload). -/
def jsonEscChar (c : Char) : Str :=
  if c = '"' then ['\\', '"']
  else if c = '\\' then ['\\', '\\']
  else if c = '\n' then ['\\', 'n']
  else if c = '\t' then ['\\', 't']
  else if c = '\r' then ['\\', 'r']
  else [c]

/-- JSON string-body escaping. -/
def jsonEsc : Str → Str
  | [] => []
  | c :: cs => jsonEscChar c ++ jsonEsc cs

/-- A JSON string literal. -/
def jsonStr (s : Str) : Str := '"' :: (jsonEsc s ++ ['"'])

/-- A JSON array with `json.dumps` default separators. -/
def jsonArr (items : List Str) : Str :=
  '[' :: (List.intercalate ((", ").toList) items ++ [']'])

/-- A JSON object with `json.dumps` default separators. -/
def jsonObj (fields : List (Str × Str)) : Str :=
  '\x7b' :: (List.intercalate ((", ").toList)
    (fields.map fun f => f.1 ++ (": ").toList ++ f.2) ++ ['\x7d'])

/-- Serialization of one `{"result": ..., "columns": ...}` object. -/
def dumpSingle (r : Str) (cols : List Str) : Str :=
  jsonObj [(jsonStr (("result").toList), jsonStr r),
           (jsonStr (("columns").toList), jsonArr (cols.map jsonStr))]

/-- Serialization of the error object `{"result": ...}` (no columns key). -/
def dumpErr (r : Str) : Str := jsonObj [(jsonStr (("result").toList), jsonStr r)]

/-- `json.dumps(response)` for the three response shapes the tool builds. -/
def jsonDumps : Resp → Str
  | .single r cols => dumpSingle r cols
  | .err r => dumpErr r
  | .multi items => jsonArr (items.map fun it => dumpSingle it.1 it.2)

/-- Outcome of the `try` body before serialization: an early `return` of a
plain advisory string, or a computed response. -/
inductive BodyOut
  | earlyRet (s : Str)
  | resp (r : Resp)

/-- The multi-statement loop.  Returns the accumulated
`{"result", "columns"}` pairs (or the first uncaught execution fault) and,
as an observable trace, the statements actually passed to `db.run`, in
order. -/
def runMulti (env : Env) : List Str → Except Str (List (Str × List Str)) × List Str
  | [] => (.ok [], [])
  | stmt :: rest =>
    if nonTx stmt then
      match env.run stmt with
      | .error e => (.error e, [stmt])
      | .ok r =>
        let cols := (extractColumnsFromQuery env.llm env.parse stmt).columns
        let (res, tr) := runMulti env rest
        (res.map (fun items => (r, cols) :: items), stmt :: tr)
    else runMulti env rest

/-- The statement dispatch inside the `try` block: split, then the
`len == 0 / len == 1 / else` branches.  In the single-statement branch the
column inference receives the whole normalized `query`, as in the source. -/
def tryBodyCore (env : Env) (q : Str) : Except Str BodyOut × List Str :=
  match env.sqlSplit q with
  | [] => (.ok (.earlyRet noValidMsg), [])
  | [stmt] =>
    match env.run stmt with
    | .error e => (.error e, [stmt])
    | .ok r =>
      (.ok (.resp (.single r
        (extractColumnsFromQuery env.llm env.parse q).columns)), [stmt])
  | s₁ :: s₂ :: ss =>
    let (res, tr) := runMulti env (s₁ :: s₂ :: ss)
    (res.map (fun items => .resp (.multi items)), tr)

/-- The whole `try` body, starting with the optional debugger echo
(`cat.send_chat_message`), which runs inside the guard. -/
def tryBody (env : Env) (q : Str) : Except Str BodyOut × List Str :=
  if env.debuggerEnabled then
    match env.sendMsg with
    | .error e => (.error e, [])
    | .ok _ => tryBodyCore env q
  else tryBodyCore env q

/-- `query_database_data(tool_input, cat)` from `plugin.py`.  The first
component is the value handed back to the host (`Except.error` would be an
exception escaping the function: the generation/validation chain invocation
and `clean_langchain_query` run before the `try` block); the second is the
trace of statements passed to `db.run`. -/
def queryDatabaseData (env : Env) : Except Str Str × List Str :=
  if env.dbConnected = false then (.ok notConnectedMsg, [])
  else
    match env.gen with
    | .error e => (.error e, [])
    | .ok raw =>
      match cleanLangchainQuery raw with
      | none => (.error indexErrMsg, [])
      | some q =>
        match tryBody env q with
        | (.ok (.earlyRet s), tr) => (.ok s, tr)
        | (.ok (.resp r), tr) => (.ok (jsonDumps r), tr)
        | (.error e, tr) => (.ok (jsonDumps (.err e)), tr)

/-! ## Concrete environments used in counterexamples and witnesses -/

/-- Environment whose generation/validation chain raises; everything else
is healthy. -/
def envGenFail : Env :=
  ⟨true, false, .ok (), .error (("LLM connection refused").toList),
   fun _ => [], fun _ => .ok [], ⟨fun _ => .ok []⟩, fun _ => .ok []⟩

/-- Environment whose chain returns normally. -/
def envGenOk : Env :=
  ⟨true, false, .ok (), .ok (("SELECT 1").toList),
   fun _ => [], fun _ => .ok [], ⟨fun _ => .ok []⟩, fun _ => .ok []⟩

/-- Environment generating `["BEGIN", "SELECT 1", "COMMIT"]`. -/
def envBsc : Env :=
  ⟨true, false, .ok (), .ok (("SELECT 1").toList),
   fun _ => [("BEGIN").toList, ("SELECT 1").toList, ("COMMIT").toList],
   fun s => .ok s, ⟨fun _ => .ok []⟩, fun _ => .ok []⟩

/-- Environment whose database raises on every statement, with a
two-statement split. -/
def envRunFail : Env :=
  ⟨true, false, .ok (), .ok (("SELECT 1").toList),
   fun _ => [("SELECT 1").toList, ("SELECT 2").toList],
   fun _ => .error (("no such table").toList), ⟨fun _ => .ok []⟩,
   fun _ => .ok []⟩

/-- Environment generating exactly `["BEGIN", "COMMIT"]`. -/
def envTxOnly : Env :=
  ⟨true, false, .ok (), .ok (("x").toList),
   fun _ => [("BEGIN").toList, ("COMMIT").toList], fun s => .ok s,
   ⟨fun _ => .ok []⟩, fun _ => .ok []⟩

/-! ## Library lemmas about the Python string primitives -/

/-! ### Sanity computations on concrete inputs -/

example : sqlQueryLbl = ("SQLQuery: ").toList := by decide
example : fence = ("```").toList := by decide
example : sqlTag = ("sql ").toList := by decide

example : cleanLangchainQuery ("SQLQuery: SELECT 1").toList =
    some (("SELECT 1").toList) := by decide
example : cleanLangchainQuery ("```sql\nSELECT 1\n```").toList =
    some (("SELECT 1").toList) := by decide
example : cleanLangchainQuery ("SQLQuery: a: b").toList =
    some (("a").toList) := by decide
example : cleanLangchainQuery ("sql a sql b").toList =
    some (("a").toList) := by decide
example : cleanLangchainQuery ("```SQLQuery: SELECT```").toList =
    some (("SQLQuery: SELECT").toList) := by decide

example :
    extractColumnsFromQuery ⟨fun _ => .error []⟩ (fun _ => .ok [])
      ("DELETE FROM products WHERE id=5").toList = ⟨[], false, false⟩ := by
  decide

example : jsonDumps (.multi []) = ("[]").toList := by decide

theorem strContains_iff (s pat : Str) : strContains s pat = true ↔ pat <:+: s := by
  induction s with
  | nil => simp [strContains, List.isEmpty_iff]
  | cons x xs ih => simp [strContains, List.infix_cons_iff, ih]

theorem strContains_of_sub {u v p : Str} (hs : u <:+: v)
    (h : strContains v p = false) : strContains u p = false := by
  rw [← Bool.not_eq_true] at h ⊢
  intro hc
  exact h (by rw [strContains_iff] at hc ⊢; exact hc.trans hs)

theorem strContains_single {s : Str} {c : Char} :
    strContains s [c] = true ↔ c ∈ s := by
  induction s with
  | nil => simp [strContains]
  | cons x xs ih => simp [strContains, List.cons_prefix_cons, ih]

theorem drop_length_le (l : Str) (k : Nat) : (l.drop k).length ≤ l.length := by
  rw [List.length_drop]
  exact Nat.sub_le _ _

theorem pySplitAux_skip (sep s : Str) : ∀ k : Nat,
    pySplitAux sep s k = pySplitAux sep (s.drop k) 0 := by
  induction s with
  | nil => intro k; cases k <;> simp [pySplitAux]
  | cons x xs ih =>
    intro k
    cases k with
    | zero => simp
    | succ k => simpa [pySplitAux] using ih k

theorem pySplit_cons_pos {sep : Str} {x : Char} {xs : Str}
    (h : sep.isPrefixOf (x :: xs) = true) :
    pySplit (x :: xs) sep = [] :: pySplit (xs.drop (sep.length - 1)) sep := by
  unfold pySplit
  rw [show pySplitAux sep (x :: xs) 0 = [] :: pySplitAux sep xs (sep.length - 1) from by
    simp [pySplitAux, h]]
  rw [pySplitAux_skip sep xs (sep.length - 1)]

theorem pySplitAux_ne_nil (sep : Str) : ∀ (s : Str) (k : Nat),
    pySplitAux sep s k ≠ [] := by
  intro s
  induction s with
  | nil => intro k; cases k <;> simp [pySplitAux]
  | cons x xs ih =>
    intro k
    cases k with
    | succ k => simpa [pySplitAux] using ih k
    | zero =>
      by_cases h : sep.isPrefixOf (x :: xs) = true
      · simp [pySplitAux, h]
      · simp only [pySplitAux, h]
        simp only [Bool.false_eq_true, if_false]
        cases pySplitAux sep xs 0 <;> simp

theorem pySplit_ne_nil (sep s : Str) : pySplit s sep ≠ [] :=
  pySplitAux_ne_nil sep s 0

theorem pySplit_cons_neg {sep : Str} {x : Char} {xs h t}
    (hpre : sep.isPrefixOf (x :: xs) = false)
    (hx : pySplit xs sep = h :: t) :
    pySplit (x :: xs) sep = (x :: h) :: t := by
  unfold pySplit at *
  simp [pySplitAux, hpre, hx]

theorem pySplit_head_pre (sep : Str) : ∀ (s : Str) {h : Str} {t : List Str},
    pySplit s sep = h :: t → h <+: s := by
  intro s
  induction s with
  | nil =>
    intro h t hs
    simp [pySplit, pySplitAux] at hs
    simp [hs.1]
  | cons x xs ih =>
    intro h t hs
    by_cases hpre : sep.isPrefixOf (x :: xs) = true
    · rw [pySplit_cons_pos hpre] at hs
      injection hs with h1 h2
      subst h1
      exact List.nil_prefix
    · obtain ⟨h', t', hx⟩ := List.exists_cons_of_ne_nil (pySplit_ne_nil sep xs)
      rw [pySplit_cons_neg (Bool.eq_false_iff.mpr hpre) hx] at hs
      injection hs with h1 h2
      subst h1
      exact (List.cons_prefix_cons).mpr ⟨rfl, ih hx⟩

theorem pySplit_elem_sub_len (sep : Str) (n : Nat) : ∀ (s : Str),
    s.length ≤ n → ∀ e ∈ pySplit s sep, e <:+: s := by
  induction n with
  | zero =>
    intro s hlen e he
    rw [List.length_eq_zero.mp (Nat.le_zero.mp hlen)] at *
    simp [pySplit, pySplitAux] at he
    simp [he]
  | succ m ih =>
    intro s hlen e he
    match s with
    | [] => simp [pySplit, pySplitAux] at he; simp [he]
    | x :: xs =>
      have hxs : xs.length ≤ m := Nat.le_of_succ_le_succ hlen
      by_cases hpre : sep.isPrefixOf (x :: xs) = true
      · rw [pySplit_cons_pos hpre] at he
        rcases List.mem_cons.mp he with rfl | he
        · exact List.nil_infix
        · have hdrop : (xs.drop (sep.length - 1)).length ≤ m :=
            Nat.le_trans (drop_length_le _ _) hxs
          have := ih _ hdrop e he
          exact List.infix_cons (this.trans (List.drop_suffix _ _).isInfix)
      · obtain ⟨h', t', hx⟩ := List.exists_cons_of_ne_nil (pySplit_ne_nil sep xs)
        rw [pySplit_cons_neg (Bool.eq_false_iff.mpr hpre) hx] at he
        rcases List.mem_cons.mp he with rfl | he
        · exact ((List.cons_prefix_cons).mpr
            ⟨rfl, pySplit_head_pre sep xs hx⟩).isInfix
        · have : e <:+: xs := ih _ hxs e (hx ▸ List.mem_cons_of_mem _ he)
          exact List.infix_cons this

theorem pySplit_elem_sub {sep s e : Str} (he : e ∈ pySplit s sep) : e <:+: s :=
  pySplit_elem_sub_len sep s.length s Nat.le.refl e he

theorem pySplit_elem_nosep_len (sep : Str) (hsep : sep ≠ []) (n : Nat) :
    ∀ (s : Str), s.length ≤ n → ∀ e ∈ pySplit s sep,
      strContains e sep = false := by
  induction n with
  | zero =>
    intro s hlen e he
    rw [List.length_eq_zero.mp (Nat.le_zero.mp hlen)] at *
    simp [pySplit, pySplitAux] at he
    simp [he, strContains, List.isEmpty_iff, hsep]
  | succ m ih =>
    intro s hlen e he
    match s with
    | [] =>
      simp [pySplit, pySplitAux] at he
      simp [he, strContains, List.isEmpty_iff, hsep]
    | x :: xs =>
      have hxs : xs.length ≤ m := Nat.le_of_succ_le_succ hlen
      by_cases hpre : sep.isPrefixOf (x :: xs) = true
      · rw [pySplit_cons_pos hpre] at he
        rcases List.mem_cons.mp he with rfl | he
        · simp [strContains, List.isEmpty_iff, hsep]
        · exact ih _ (Nat.le_trans (drop_length_le _ _) hxs) e he
      · obtain ⟨h', t', hx⟩ := List.exists_cons_of_ne_nil (pySplit_ne_nil sep xs)
        rw [pySplit_cons_neg (Bool.eq_false_iff.mpr hpre) hx] at he
        rcases List.mem_cons.mp he with rfl | he
        · have hh' : strContains h' sep = false :=
            ih _ hxs h' (hx ▸ List.mem_cons_self _ _)
          simp only [strContains, Bool.or_eq_false_iff]
          refine ⟨?_, hh'⟩
          rw [Bool.eq_false_iff]
          intro habs
          have : sep <+: x :: xs :=
            (List.isPrefixOf_iff_prefix.mp habs).trans
              ((List.cons_prefix_cons).mpr ⟨rfl, pySplit_head_pre sep xs hx⟩)
          exact hpre (List.isPrefixOf_iff_prefix.mpr this)
        · exact ih _ hxs e (hx ▸ List.mem_cons_of_mem _ he)

theorem pySplit_elem_nosep {sep s e : Str} (hsep : sep ≠ [])
    (he : e ∈ pySplit s sep) : strContains e sep = false :=
  pySplit_elem_nosep_len sep hsep s.length s Nat.le.refl e he

theorem pySplit_len2 {sep : Str} (hsep : sep ≠ []) :
    ∀ s, strContains s sep = true → 2 ≤ (pySplit s sep).length := by
  intro s
  induction s with
  | nil => intro h; simp [strContains, List.isEmpty_iff, hsep] at h
  | cons x xs ih =>
    intro h
    by_cases hpre : sep.isPrefixOf (x :: xs) = true
    · rw [pySplit_cons_pos hpre]
      have := pySplit_ne_nil sep (xs.drop (sep.length - 1))
      match hr : pySplit (xs.drop (sep.length - 1)) sep with
      | [] => exact absurd hr this
      | a :: r => simp
    · simp only [strContains, Bool.or_eq_true] at h
      rcases h with h | h
      · exact absurd h hpre
      · obtain ⟨h', t', hx⟩ := List.exists_cons_of_ne_nil (pySplit_ne_nil sep xs)
        have h2 := ih h
        rw [pySplit_cons_neg (Bool.eq_false_iff.mpr hpre) hx]
        rw [hx] at h2
        simpa using h2

theorem pySplit_nosep {sep : Str} :
    ∀ s, strContains s sep = false → pySplit s sep = [s] := by
  intro s
  induction s with
  | nil => intro _; rfl
  | cons x xs ih =>
    intro h
    simp only [strContains, Bool.or_eq_false_iff] at h
    exact pySplit_cons_neg h.1 (ih h.2)

theorem pySplit_append {sep b : Str} (hsep : sep ≠ []) :
    ∀ a : Str,
      (∀ k, k < a.length → sep.isPrefixOf (a.drop k ++ sep ++ b) = false) →
      pySplit (a ++ sep ++ b) sep = a :: pySplit b sep := by
  intro a
  induction a with
  | nil =>
    intro _
    obtain ⟨c, sep', rfl⟩ := List.exists_cons_of_ne_nil hsep
    have hpre : (c :: sep').isPrefixOf (c :: (sep' ++ b)) = true := by
      rw [List.isPrefixOf_iff_prefix]
      exact ⟨b, by simp⟩
    have : ([] : Str) ++ (c :: sep') ++ b = c :: (sep' ++ b) := by simp
    rw [this, pySplit_cons_pos hpre]
    congr 1
    have : (c :: sep').length - 1 = sep'.length := by simp
    rw [this, List.drop_left]
  | cons x a' ih =>
    intro hk
    have h0 := hk 0 (by simp)
    simp only [List.drop_zero] at h0
    have hrec : pySplit (a' ++ sep ++ b) sep = a' :: pySplit b sep :=
      ih fun k hklt => by
        have := hk (k + 1) (by simpa using Nat.succ_lt_succ hklt)
        simpa using this
    have hx : (x :: a') ++ sep ++ b = x :: (a' ++ sep ++ b) := by simp
    rw [hx]
    rw [hx] at h0
    exact pySplit_cons_neg h0 hrec

theorem pyReplaceAux_skip (old new s : Str) : ∀ k : Nat,
    pyReplaceAux old new s k = pyReplaceAux old new (s.drop k) 0 := by
  induction s with
  | nil => intro k; cases k <;> simp [pyReplaceAux]
  | cons x xs ih =>
    intro k
    cases k with
    | zero => simp
    | succ k => simpa [pyReplaceAux] using ih k

theorem pyReplace_cons_pos {old new : Str} {x : Char} {xs : Str}
    (h : old.isPrefixOf (x :: xs) = true) :
    pyReplace (x :: xs) old new =
      new ++ pyReplace (xs.drop (old.length - 1)) old new := by
  unfold pyReplace
  rw [show pyReplaceAux old new (x :: xs) 0 =
      new ++ pyReplaceAux old new xs (old.length - 1) from by
    simp [pyReplaceAux, h]]
  rw [pyReplaceAux_skip old new xs (old.length - 1)]

theorem pyReplace_cons_neg {old new : Str} {x : Char} {xs : Str}
    (h : old.isPrefixOf (x :: xs) = false) :
    pyReplace (x :: xs) old new = x :: pyReplace xs old new := by
  unfold pyReplace
  simp [pyReplaceAux, h]

theorem pyReplace_nil (old new : Str) : pyReplace [] old new = [] := rfl

theorem pyReplace_nocc {old new : Str} :
    ∀ s, strContains s old = false → pyReplace s old new = s := by
  intro s
  induction s with
  | nil => intro _; rfl
  | cons x xs ih =>
    intro h
    simp only [strContains, Bool.or_eq_false_iff] at h
    rw [pyReplace_cons_neg h.1, ih h.2]

theorem pyReplace_mem_len (old new : Str) (c : Char) (n : Nat) :
    ∀ s : Str, s.length ≤ n → c ∈ pyReplace s old new → c ∈ s ∨ c ∈ new := by
  induction n with
  | zero =>
    intro s hlen hc
    rw [List.length_eq_zero.mp (Nat.le_zero.mp hlen)] at hc
    simp [pyReplace_nil] at hc
  | succ m ih =>
    intro s hlen hc
    match s with
    | [] => simp [pyReplace_nil] at hc
    | x :: xs =>
      have hxs : xs.length ≤ m := Nat.le_of_succ_le_succ hlen
      by_cases h : old.isPrefixOf (x :: xs) = true
      · rw [pyReplace_cons_pos h] at hc
        rcases List.mem_append.mp hc with hc | hc
        · exact Or.inr hc
        · rcases ih _ (Nat.le_trans (drop_length_le _ _) hxs) hc with hin | hin
          · exact Or.inl (List.mem_cons_of_mem _ ((List.drop_suffix _ _).subset hin))
          · exact Or.inr hin
      · rw [pyReplace_cons_neg (Bool.eq_false_iff.mpr h)] at hc
        rcases List.mem_cons.mp hc with rfl | hc
        · exact Or.inl (List.mem_cons_self _ _)
        · rcases ih _ hxs hc with hin | hin
          · exact Or.inl (List.mem_cons_of_mem _ hin)
          · exact Or.inr hin

theorem pyReplace_mem {old new s : Str} {c : Char}
    (hc : c ∈ pyReplace s old new) : c ∈ s ∨ c ∈ new :=
  pyReplace_mem_len old new c s.length s Nat.le.refl hc

theorem pyReplace_single_not_mem {a : Char} {new : Str} (hnew : a ∉ new) :
    ∀ s : Str, a ∉ pyReplace s [a] new := by
  intro s
  induction s with
  | nil => simp [pyReplace_nil]
  | cons x xs ih =>
    by_cases h : List.isPrefixOf [a] (x :: xs) = true
    · rw [pyReplace_cons_pos h]
      rw [show ([a] : Str).length - 1 = 0 from rfl, List.drop_zero]
      intro hc
      rcases List.mem_append.mp hc with hc | hc
      · exact hnew hc
      · exact ih hc
    · rw [pyReplace_cons_neg (Bool.eq_false_iff.mpr h)]
      intro hc
      rcases List.mem_cons.mp hc with rfl | hc
      · exact h (List.isPrefixOf_iff_prefix.mpr
          ((List.cons_prefix_cons).mpr ⟨rfl, List.nil_prefix⟩))
      · exact ih hc

theorem fenceRep_pos {x : Char} {xs : Str} (h : fence.isPrefixOf (x :: xs) = true) :
    pyReplace (x :: xs) fence [] = pyReplace (xs.drop 2) fence [] := by
  rw [pyReplace_cons_pos h, show fence.length - 1 = 2 from rfl, List.nil_append]

theorem fence_lead1 : ∀ s : Str, [bq] <+: pyReplace s fence [] → [bq] <+: s := by
  intro s
  match s with
  | [] => intro h; rw [pyReplace_nil] at h; exact h
  | x :: xs =>
    intro h
    by_cases hp : fence.isPrefixOf (x :: xs) = true
    · exact (show ([bq] : Str) <+: fence from ⟨[bq, bq], rfl⟩).trans
        (List.isPrefixOf_iff_prefix.mp hp)
    · rw [pyReplace_cons_neg (Bool.eq_false_iff.mpr hp)] at h
      rw [List.cons_prefix_cons] at h
      obtain ⟨rfl, -⟩ := h
      exact (List.cons_prefix_cons).mpr ⟨rfl, List.nil_prefix⟩

theorem fence_lead2 : ∀ s : Str, [bq, bq] <+: pyReplace s fence [] →
    [bq, bq] <+: s := by
  intro s
  match s with
  | [] => intro h; rw [pyReplace_nil] at h; exact h
  | x :: xs =>
    intro h
    by_cases hp : fence.isPrefixOf (x :: xs) = true
    · exact (show ([bq, bq] : Str) <+: fence from ⟨[bq], rfl⟩).trans
        (List.isPrefixOf_iff_prefix.mp hp)
    · rw [pyReplace_cons_neg (Bool.eq_false_iff.mpr hp)] at h
      rw [List.cons_prefix_cons] at h
      obtain ⟨rfl, h2⟩ := h
      obtain ⟨t, ht⟩ := fence_lead1 xs h2
      rw [← ht]
      exact (List.cons_prefix_cons).mpr ⟨rfl,
        (List.cons_prefix_cons).mpr ⟨rfl, List.nil_prefix⟩⟩

theorem fenceRep_nocc_len (n : Nat) : ∀ s : Str, s.length ≤ n →
    strContains (pyReplace s fence []) fence = false := by
  induction n with
  | zero =>
    intro s hlen
    rw [List.length_eq_zero.mp (Nat.le_zero.mp hlen), pyReplace_nil]
    decide
  | succ m ih =>
    intro s hlen
    match s with
    | [] => rw [pyReplace_nil]; decide
    | x :: xs =>
      have hxs : xs.length ≤ m := Nat.le_of_succ_le_succ hlen
      by_cases hp : fence.isPrefixOf (x :: xs) = true
      · rw [fenceRep_pos hp]
        exact ih _ (Nat.le_trans (drop_length_le _ _) hxs)
      · rw [pyReplace_cons_neg (Bool.eq_false_iff.mpr hp)]
        simp only [strContains, Bool.or_eq_false_iff]
        constructor
        · rw [Bool.eq_false_iff]
          intro habs
          have hpre := List.isPrefixOf_iff_prefix.mp habs
          rw [show fence = bq :: bq :: [bq] from rfl, List.cons_prefix_cons] at hpre
          obtain ⟨rfl, h2⟩ := hpre
          obtain ⟨t, ht⟩ := fence_lead2 xs h2
          apply hp
          rw [List.isPrefixOf_iff_prefix, ← ht]
          exact (List.cons_prefix_cons).mpr ⟨rfl,
            (List.cons_prefix_cons).mpr ⟨rfl,
              (List.cons_prefix_cons).mpr ⟨rfl, List.nil_prefix⟩⟩⟩
        · exact ih xs hxs

theorem fenceStep_nocc (s : Str) : strContains (fenceStep s) fence = false :=
  fenceRep_nocc_len s.length s Nat.le.refl

theorem dropWhile_dropWhile (p : Char → Bool) : ∀ l : Str,
    (l.dropWhile p).dropWhile p = l.dropWhile p := by
  intro l
  induction l with
  | nil => rfl
  | cons x xs ih =>
    by_cases h : p x = true
    · simp [List.dropWhile_cons, h, ih]
    · simp [List.dropWhile_cons, h]

theorem dropWhile_head_not (p : Char → Bool) : ∀ (l : Str) (c : Char) (cs : Str),
    l.dropWhile p = c :: cs → p c = false := by
  intro l
  induction l with
  | nil => intro c cs h; simp at h
  | cons x xs ih =>
    intro c cs h
    by_cases hx : p x = true
    · rw [List.dropWhile_cons, if_pos hx] at h
      exact ih c cs h
    · rw [List.dropWhile_cons, if_neg hx] at h
      injection h with h1 h2
      subst h1
      exact Bool.eq_false_iff.mpr hx

theorem dropWhile_eq_self_of_head (p : Char → Bool) {l : Str}
    (h : ∀ c cs, l = c :: cs → p c = false) : l.dropWhile p = l := by
  match l with
  | [] => rfl
  | c :: cs => simp [List.dropWhile_cons, h c cs rfl]

theorem pyStrip_sub (s : Str) : pyStrip s <:+: s := by
  have h1 : s.dropWhile isPySpace <:+ s := List.dropWhile_suffix _
  have h3 : pyStrip s <+: s.dropWhile isPySpace := by
    rw [← List.reverse_suffix]
    simpa [pyStrip] using
      List.dropWhile_suffix (l := (s.dropWhile isPySpace).reverse) isPySpace
  exact h3.isInfix.trans h1.isInfix

theorem pyStrip_idem (s : Str) : pyStrip (pyStrip s) = pyStrip s := by
  have hA : (pyStrip s).dropWhile isPySpace = pyStrip s := by
    apply dropWhile_eq_self_of_head
    intro c cs hc
    have hpre : pyStrip s <+: s.dropWhile isPySpace := by
      rw [← List.reverse_suffix]
      simpa [pyStrip] using
        List.dropWhile_suffix (l := (s.dropWhile isPySpace).reverse) isPySpace
    obtain ⟨t, ht⟩ := hpre
    apply dropWhile_head_not isPySpace s c (cs ++ t)
    rw [← ht, hc]
    rfl
  have hB : (pyStrip s).reverse.dropWhile isPySpace = (pyStrip s).reverse := by
    simp [pyStrip, List.reverse_reverse, dropWhile_dropWhile]
  show (((pyStrip s).dropWhile isPySpace).reverse.dropWhile isPySpace).reverse
      = pyStrip s
  rw [hA, hB, List.reverse_reverse]

theorem dropWhile_all_false (p : Char → Bool) (l : Str)
    (h : ∀ c ∈ l, p c = false) : l.dropWhile p = l := by
  match l with
  | [] => rfl
  | c :: cs => simp [List.dropWhile_cons, h c (by simp)]

theorem pyStrip_all_false {s : Str} (h : ∀ c ∈ s, isPySpace c = false) :
    pyStrip s = s := by
  unfold pyStrip
  rw [dropWhile_all_false _ _ h,
    dropWhile_all_false _ _ (fun c hc => h c (by simpa using hc)),
    List.reverse_reverse]

/-! ## Totality of the normalizer -/

theorem dialectStep_isSome (q : Str) : (dialectStep q).isSome = true := by
  unfold dialectStep
  by_cases h : strContains q sqlTag = true
  · rw [if_pos h]
    have hlen := pySplit_len2 (by decide : sqlTag ≠ []) q h
    rw [List.getElem?_eq_getElem (by omega)]
    rfl
  · rw [if_neg (by simpa using h)]
    rfl

theorem labelStep_isSome (q : Str) : (labelStep q).isSome = true := by
  unfold labelStep
  by_cases h : startsWith q sqlQueryLbl = true
  · rw [if_pos h]
    have hq : sqlQueryLbl <+: q := List.isPrefixOf_iff_prefix.mp h
    have hcontains : strContains q colonSep = true := by
      rw [strContains_iff]
      have hinf : colonSep <:+: sqlQueryLbl :=
        ⟨sqlQueryName, [], by simp [sqlQueryLbl]⟩
      exact hinf.trans hq.isInfix
    have hlen := pySplit_len2 (by decide : colonSep ≠ []) q hcontains
    rw [List.getElem?_eq_getElem (by omega)]
    rfl
  · rw [if_neg (by simpa using h)]
    rfl

theorem cleanLangchainQuery_isSome (q : Str) :
    (cleanLangchainQuery q).isSome = true := by
  unfold cleanLangchainQuery
  obtain ⟨q1, h1⟩ := Option.isSome_iff_exists.mp (labelStep_isSome q)
  rw [h1]
  obtain ⟨q4, h4⟩ := Option.isSome_iff_exists.mp
    (dialectStep_isSome (fenceStep (newlineStep q1)))
  simp [h4]

/-! ## Structure of normalizer outputs -/

theorem isPre_cons_false {a b : Char} (hab : a ≠ b) (as l : Str) :
    List.isPrefixOf (a :: as) (b :: l) = false := by
  simp [List.isPrefixOf, hab]

theorem newlineStep_not_mem (q : Str) : '\n' ∉ newlineStep q :=
  pyReplace_single_not_mem (by decide) q

theorem fenceStep_mem {q : Str} {c : Char} (h : c ∈ fenceStep q) : c ∈ q := by
  rcases pyReplace_mem h with h | h
  · exact h
  · simp at h

/-- Every value produced by the normalizer contains no newline, no fence
marker and no dialect tag, and is already stripped. -/
theorem clean_out_props {x y : Str} (h : cleanLangchainQuery x = some y) :
    ('\n' ∉ y) ∧ strContains y fence = false ∧
      strContains y sqlTag = false ∧ pyStrip y = y := by
  unfold cleanLangchainQuery at h
  obtain ⟨q1, h1⟩ := Option.isSome_iff_exists.mp (labelStep_isSome x)
  simp only [h1] at h
  obtain ⟨q4, h4⟩ := Option.isSome_iff_exists.mp
    (dialectStep_isSome (fenceStep (newlineStep q1)))
  simp only [h4, Option.some.injEq] at h
  subst h
  have hwnl : '\n' ∉ fenceStep (newlineStep q1) := fun hc =>
    newlineStep_not_mem q1 (fenceStep_mem hc)
  have hwf : strContains (fenceStep (newlineStep q1)) fence = false :=
    fenceStep_nocc (newlineStep q1)
  have hq4 : q4 <:+: fenceStep (newlineStep q1) ∧
      strContains q4 sqlTag = false := by
    unfold dialectStep at h4
    by_cases hc : strContains (fenceStep (newlineStep q1)) sqlTag = true
    · rw [if_pos hc] at h4
      have hmem := List.getElem?_mem h4
      exact ⟨pySplit_elem_sub hmem, pySplit_elem_nosep (by decide) hmem⟩
    · rw [if_neg (by simpa using hc)] at h4
      injection h4 with h4
      subst h4
      exact ⟨List.infix_rfl, Bool.eq_false_iff.mpr hc⟩
  have hy : pyStrip q4 <:+: q4 := pyStrip_sub q4
  refine ⟨?_, ?_, ?_, pyStrip_idem q4⟩
  · exact fun hc => hwnl (hq4.1.subset (hy.subset hc))
  · exact strContains_of_sub hy (strContains_of_sub hq4.1 hwf)
  · exact strContains_of_sub hy hq4.2

/-- Normalizer outputs that do not begin with the label are fixed points of
the normalizer. -/
theorem clean_fix_of_not_label {x y : Str} (h : cleanLangchainQuery x = some y)
    (hlbl : startsWith y sqlQueryLbl = false) :
    cleanLangchainQuery y = some y := by
  obtain ⟨hnl, hfence, htag, hstrip⟩ := clean_out_props h
  have hl : labelStep y = some y := by
    unfold labelStep; rw [if_neg (by simp [hlbl])]
  have hn2 : newlineStep y = y := pyReplace_nocc y
    (Bool.eq_false_iff.mpr fun hc => hnl (strContains_single.mp hc))
  have hf2 : fenceStep y = y := pyReplace_nocc y hfence
  have hd2 : dialectStep y = some y := by
    unfold dialectStep; rw [if_neg (by simp [htag])]
  unfold cleanLangchainQuery
  simp only [hl, hn2, hf2, hd2, hstrip]

/-- C4.  The normalizer is NOT idempotent on all strings: fence removal can
expose a label prefix that only the second pass removes.  At the input
`"```SQLQuery: SELECT```"` one pass yields `"SQLQuery: SELECT"` and a second
pass yields `"SELECT"`. -/
theorem c4_counterexample :
    (cleanLangchainQuery (("```SQLQuery: SELECT```").toList)).bind
        cleanLangchainQuery ≠
      cleanLangchainQuery (("```SQLQuery: SELECT```").toList) ∧
    cleanLangchainQuery (("```SQLQuery: SELECT```").toList) =
      some (("SQLQuery: SELECT").toList) ∧
    cleanLangchainQuery (("SQLQuery: SELECT").toList) =
      some (("SELECT").toList) := by
  refine ⟨by decide, by decide, by decide⟩

/-- C4 (amended).  The normalizer is idempotent on every input whose
normalized form does not begin with the label prefix `"SQLQuery: "`:
normalizing a second time is then the identity. -/
theorem c4_idem_unless_label {x y : Str} (h : cleanLangchainQuery x = some y)
    (hlbl : startsWith y sqlQueryLbl = false) :
    cleanLangchainQuery y = some y :=
  clean_fix_of_not_label h hlbl

/-- Witness for C4 (amended) at `x = "SQLQuery: SELECT 1"`. -/
theorem c4_witness :
    cleanLangchainQuery (("SELECT 1").toList) = some (("SELECT 1").toList) :=
  c4_idem_unless_label (x := ("SQLQuery: SELECT 1").toList) (by decide) (by decide)

/-- C5.  The prefix-removal step does NOT keep the entire content after the
first `": "`: `query.split(": ")[1]` keeps only the segment up to the next
`": "`.  On `"SQLQuery: a: b"` the normalizer returns `"a"`, not `"a: b"`. -/
theorem c5_counterexample :
    cleanLangchainQuery (("SQLQuery: a: b").toList) ≠ some (("a: b").toList) ∧
    cleanLangchainQuery (("SQLQuery: a: b").toList) = some (("a").toList) := by
  refine ⟨by decide, by decide⟩

/-- C5 (amended).  For every string of the form `"SQLQuery: " ++ rest` where
`rest` contains no further `": "`, the prefix-removal step keeps exactly
`rest`; in particular `normalize("SQLQuery: SELECT 1") = "SELECT 1"`. -/
theorem c5_label_removal (rest : Str) (h : strContains rest colonSep = false) :
    labelStep (sqlQueryLbl ++ rest) = some rest ∧
    cleanLangchainQuery (("SQLQuery: SELECT 1").toList) =
      some (("SELECT 1").toList) := by
  refine ⟨?_, by decide⟩
  unfold labelStep
  rw [if_pos (show startsWith (sqlQueryLbl ++ rest) sqlQueryLbl = true from
    List.isPrefixOf_iff_prefix.mpr ⟨rest, rfl⟩)]
  rw [show pySplit (sqlQueryLbl ++ rest) colonSep =
      sqlQueryName :: pySplit rest colonSep from by
    simp [pySplit, pySplitAux, List.isPrefixOf, sqlQueryLbl, sqlQueryName,
      colonSep]]
  rw [pySplit_nosep rest h]
  rfl

/-- Witness for C5 (amended) at `rest = "SELECT 1"`. -/
theorem c5_witness :
    labelStep (sqlQueryLbl ++ ("SELECT 1").toList) = some (("SELECT 1").toList) :=
  (c5_label_removal (("SELECT 1").toList) (by decide)).1

/-- If `"sql "` does not occur in `a`, then no occurrence of `"sql "` in
`a ++ "sql " ++ b` starts before position `a.length` (the token cannot
overlap itself). -/
theorem sqlTag_first_of_nocc {a b : Str} (ha : strContains a sqlTag = false) :
    ∀ k, k < a.length → sqlTag.isPrefixOf (a.drop k ++ sqlTag ++ b) = false := by
  intro k hk
  rw [Bool.eq_false_iff]
  intro habs
  have hpre := List.isPrefixOf_iff_prefix.mp habs
  have hdlen : 0 < (a.drop k).length := by
    rw [List.length_drop]
    omega
  rcases Nat.lt_or_ge (a.drop k).length 4 with hlt | hge
  · -- the occurrence would have to overlap the explicit token, impossible
    interval_cases hl : (a.drop k).length
    · obtain ⟨c, hc⟩ := List.length_eq_one.mp hl
      rw [hc] at hpre
      simp [sqlTag, List.cons_prefix_cons] at hpre
    · obtain ⟨c, e, hc⟩ := List.length_eq_two.mp hl
      rw [hc] at hpre
      simp [sqlTag, List.cons_prefix_cons] at hpre
    · obtain ⟨c, e, f, hc⟩ := List.length_eq_three.mp hl
      rw [hc] at hpre
      simp [sqlTag, List.cons_prefix_cons] at hpre
  · -- the occurrence would lie inside `a`
    have htake : sqlTag = (a.drop k).take 4 := by
      have := List.prefix_iff_eq_take.mp hpre
      rw [List.append_assoc, List.take_append_eq_append_take] at this
      rw [show (sqlTag.length : Nat) = 4 from rfl] at this
      rw [show 4 - (a.drop k).length = 0 from by omega] at this
      simpa using this
    have : sqlTag <+: a.drop k := htake ▸ List.take_prefix 4 (a.drop k)
    have : strContains a sqlTag = true := by
      rw [strContains_iff]
      exact this.isInfix.trans (List.drop_suffix k a).isInfix
    rw [this] at ha
    cases ha

/-- C6 (amended).  When `"sql "` occurs exactly once — the text is
`a ++ "sql " ++ b` with neither `a` nor `b` containing `"sql "` — the
dialect step discards everything up to and including that occurrence and
keeps all of `b`; with several occurrences only the segment before the next
occurrence is kept (see the counterexample). -/
theorem c6_dialect_removal (a b : Str) (ha : strContains a sqlTag = false)
    (hb : strContains b sqlTag = false) :
    dialectStep (a ++ sqlTag ++ b) = some b ∧
    cleanLangchainQuery (("```sql\nSELECT 1\n```").toList) =
      some (("SELECT 1").toList) := by
  refine ⟨?_, by decide⟩
  unfold dialectStep
  rw [if_pos (show strContains (a ++ sqlTag ++ b) sqlTag = true from
    (strContains_iff _ _).mpr (List.infix_append a sqlTag b))]
  rw [pySplit_append (by decide) a (sqlTag_first_of_nocc ha)]
  rw [pySplit_nosep b hb]
  rfl

/-- C6.  The dialect step does NOT keep all of the remainder after the
first `"sql "`: on `"sql a sql b"` the normalizer returns `"a"`, not
`"a sql b"`. -/
theorem c6_counterexample :
    cleanLangchainQuery (("sql a sql b").toList) ≠ some (("a sql b").toList) ∧
    cleanLangchainQuery (("sql a sql b").toList) = some (("a").toList) := by
  refine ⟨by decide, by decide⟩

/-- Witness for C6 (amended) at `a = "x "`, `b = "SELECT 1"`. -/
theorem c6_witness :
    dialectStep (("x ").toList ++ sqlTag ++ ("SELECT 1").toList) =
      some (("SELECT 1").toList) :=
  (c6_dialect_removal (("x ").toList) (("SELECT 1").toList)
    (by decide) (by decide)).1

/-- C9.  The normalizer is total: it always returns a string (the guarded
`[1]` indexes never fail), and each of the five steps is the identity when
its trigger condition does not hold. -/
theorem c9_normalizer_total (q : Str) :
    (cleanLangchainQuery q).isSome = true ∧
    (startsWith q sqlQueryLbl = false → labelStep q = some q) ∧
    ('\n' ∉ q → newlineStep q = q) ∧
    (strContains q fence = false → fenceStep q = q) ∧
    (strContains q sqlTag = false → dialectStep q = some q) ∧
    ((∀ c ∈ q, isPySpace c = false) → pyStrip q = q) := by
  refine ⟨cleanLangchainQuery_isSome q, ?_, ?_, ?_, ?_, ?_⟩
  · intro h
    unfold labelStep
    rw [if_neg (by simp [h])]
  · intro h
    exact pyReplace_nocc q
      (Bool.eq_false_iff.mpr fun hc => h (strContains_single.mp hc))
  · exact fun h => pyReplace_nocc q h
  · intro h
    unfold dialectStep
    rw [if_neg (by simp [h])]
  · exact fun h => pyStrip_all_false h

/-- Witness for C9 at `q = "DROP TABLE a"`. -/
theorem c9_witness :
    (cleanLangchainQuery (("DROP TABLE a").toList)).isSome = true ∧
    newlineStep (("DROP TABLE a").toList) = ("DROP TABLE a").toList :=
  ⟨(c9_normalizer_total _).1,
   (c9_normalizer_total (("DROP TABLE a").toList)).2.2.1 (by decide)⟩

/-! ## Column-inference claims -/

/-- C7.  A statement whose lowercased text starts with none of `select`,
`show`, `describe`, `explain`, `with` and does not contain `" returning "`
yields the empty column list without invoking the language model. -/
theorem c7_short_circuit (llm : LLM) (parse : ColParser) (sql_statement : Str)
    (hstart : ∀ qt ∈ queryTypes, startsWith (pyLower sql_statement) qt = false)
    (hret : strContains (pyLower sql_statement) returningTok = false) :
    extractColumnsFromQuery llm parse sql_statement = ⟨[], false, false⟩ := by
  have hcond : isRowProducing sql_statement = false := by
    unfold isRowProducing
    rw [Bool.or_eq_false_iff]
    refine ⟨?_, hret⟩
    rw [List.any_eq_false]
    intro qt hqt
    simp [hstart qt hqt]
  unfold extractColumnsFromQuery
  rw [if_neg (by simp [hcond])]

/-- Witness for C7 at `"DELETE FROM products WHERE id=5"`. -/
theorem c7_witness :
    extractColumnsFromQuery ⟨fun _ => .ok []⟩ (fun _ => .ok [])
      ("DELETE FROM products WHERE id=5").toList = ⟨[], false, false⟩ :=
  c7_short_circuit _ _ _ (by decide) (by decide)

/-- C8.  `extract_columns_from_query` never propagates a failure: for every
behaviour of the model capability, a raising model, an empty response or a
raising parse all produce the empty column list; when the model was
actually consulted, a raising model or parse is also reported to the log
sink (`log.error`). -/
theorem c8_failure_containment (llm : LLM) (parse : ColParser)
    (sql_statement : Str) :
    (∀ e, llm.invoke (colPrompt sql_statement) = .error e →
      (extractColumnsFromQuery llm parse sql_statement).columns = []) ∧
    (llm.invoke (colPrompt sql_statement) = .ok [] →
      (extractColumnsFromQuery llm parse sql_statement).columns = []) ∧
    (∀ out e, llm.invoke (colPrompt sql_statement) = .ok out → out ≠ [] →
      parse out = .error e →
      (extractColumnsFromQuery llm parse sql_statement).columns = []) ∧
    (isRowProducing sql_statement = true →
      (∀ e, llm.invoke (colPrompt sql_statement) = .error e →
        extractColumnsFromQuery llm parse sql_statement = ⟨[], true, true⟩) ∧
      (∀ out e, llm.invoke (colPrompt sql_statement) = .ok out → out ≠ [] →
        parse out = .error e →
        extractColumnsFromQuery llm parse sql_statement = ⟨[], true, true⟩)) := by
  by_cases hrp : isRowProducing sql_statement = true
  · have hbody : ∀ e, llm.invoke (colPrompt sql_statement) = .error e →
        extractColumnsFromQuery llm parse sql_statement = ⟨[], true, true⟩ := by
      intro e he
      unfold extractColumnsFromQuery
      rw [if_pos hrp]
      simp only [he]
    have hparse : ∀ out e, llm.invoke (colPrompt sql_statement) = .ok out →
        out ≠ [] → parse out = .error e →
        extractColumnsFromQuery llm parse sql_statement = ⟨[], true, true⟩ := by
      intro out e hok hne hp
      unfold extractColumnsFromQuery
      rw [if_pos hrp]
      simp only [hok, hp]
      rw [if_neg (by simpa [List.isEmpty_iff] using hne)]
    refine ⟨fun e he => by rw [hbody e he], ?_, fun out e h1 h2 h3 => by
      rw [hparse out e h1 h2 h3], fun _ => ⟨hbody, hparse⟩⟩
    intro hemp
    unfold extractColumnsFromQuery
    rw [if_pos hrp]
    simp only [hemp]
    rw [if_pos (by simp)]
  · have : extractColumnsFromQuery llm parse sql_statement = ⟨[], false, false⟩ := by
      unfold extractColumnsFromQuery
      rw [if_neg (by simpa using hrp)]
    refine ⟨fun _ _ => by rw [this], fun _ => by rw [this],
      fun _ _ _ _ _ => by rw [this], fun h => absurd h hrp⟩

/-- Witness for C8: a raising model on a row-producing statement. -/
theorem c8_witness :
    extractColumnsFromQuery ⟨fun _ => .error (("boom").toList)⟩
      (fun _ => .ok []) ("SELECT * FROM t").toList = ⟨[], true, true⟩ :=
  ((c8_failure_containment ⟨fun _ => .error (("boom").toList)⟩
    (fun _ => .ok []) (("SELECT * FROM t").toList)).2.2.2 (by decide)).1 _ rfl

/-! ## Orchestrator lemmas -/

theorem tryBody_sendOk {env : Env} (hmsg : env.sendMsg = .ok ()) (q : Str) :
    tryBody env q = tryBodyCore env q := by
  unfold tryBody
  by_cases hdbg : env.debuggerEnabled = true
  · rw [if_pos hdbg, hmsg]
  · rw [if_neg (by simp [hdbg])]

theorem tryBodyCore_single {env : Env} {q stmt r : Str}
    (hsplit : env.sqlSplit q = [stmt]) (hrun : env.run stmt = .ok r) :
    tryBodyCore env q =
      (.ok (.resp (.single r
        (extractColumnsFromQuery env.llm env.parse q).columns)), [stmt]) := by
  unfold tryBodyCore
  simp only [hsplit, hrun]

theorem tryBodyCore_single_err {env : Env} {q stmt e : Str}
    (hsplit : env.sqlSplit q = [stmt]) (hrun : env.run stmt = .error e) :
    tryBodyCore env q = (.error e, [stmt]) := by
  unfold tryBodyCore
  simp only [hsplit, hrun]

theorem tryBodyCore_else {env : Env} {q : Str} {sts : List Str}
    {res : Except Str (List (Str × List Str))} {tr : List Str}
    (hsplit : env.sqlSplit q = sts) (hlen : 2 ≤ sts.length)
    (hrm : runMulti env sts = (res, tr)) :
    tryBodyCore env q =
      (res.map (fun items => .resp (.multi items)), tr) := by
  cases sts with
  | nil => simp at hlen
  | cons s1 rest =>
    cases rest with
    | nil => simp at hlen
    | cons s2 ss =>
      unfold tryBodyCore
      simp only [hsplit, hrm]

theorem runMulti_all_ok {env : Env} {f : Str → Str}
    (hrun : ∀ s, env.run s = .ok (f s)) : ∀ sts : List Str,
    runMulti env sts =
      (.ok ((sts.filter nonTx).map fun s =>
        (f s, (extractColumnsFromQuery env.llm env.parse s).columns)),
       sts.filter nonTx) := by
  intro sts
  induction sts with
  | nil => rfl
  | cons stmt rest ih =>
    unfold runMulti
    by_cases hskip : nonTx stmt = true
    · rw [if_pos hskip, hrun stmt]
      simp [ih, List.filter_cons, hskip, Except.map]
    · rw [if_neg (by simpa using hskip), ih]
      simp [List.filter_cons, hskip]

theorem runMulti_first_err {env : Env} {s e : Str} {post : List Str}
    (hs : nonTx s = true) (herr : env.run s = .error e) :
    ∀ pre : List Str,
    (∀ t ∈ pre, nonTx t = true → ∃ r, env.run t = .ok r) →
    runMulti env (pre ++ s :: post) = (.error e, pre.filter nonTx ++ [s]) := by
  intro pre
  induction pre with
  | nil =>
    intro _
    simp only [List.nil_append]
    unfold runMulti
    rw [if_pos hs, herr]
    simp
  | cons t pre' ih =>
    intro hpre
    have ih' := ih (fun t' ht' h => hpre t' (by simp [ht']) h)
    simp only [List.cons_append]
    unfold runMulti
    by_cases hskip : nonTx t = true
    · obtain ⟨r, hr⟩ := hpre t (by simp) hskip
      rw [if_pos hskip, hr, ih']
      simp [List.filter_cons, hskip, Except.map]
    · rw [if_neg (by simpa using hskip), ih']
      simp [List.filter_cons, hskip]

theorem runMulti_all_skip {env : Env} : ∀ sts : List Str,
    (∀ s ∈ sts, nonTx s = false) → runMulti env sts = (.ok [], []) := by
  intro sts
  induction sts with
  | nil => intro _; rfl
  | cons t rest ih =>
    intro h
    unfold runMulti
    rw [if_neg (by simp [h t (by simp)])]
    exact ih (fun s hs => h s (by simp [hs]))

theorem queryDatabaseData_eq {env : Env} {raw q : Str}
    (hdb : env.dbConnected = true) (hgen : env.gen = .ok raw)
    (hclean : cleanLangchainQuery raw = some q) :
    queryDatabaseData env =
      match tryBody env q with
      | (.ok (.earlyRet s), tr) => (.ok s, tr)
      | (.ok (.resp r), tr) => (.ok (jsonDumps r), tr)
      | (.error e, tr) => (.ok (jsonDumps (.err e)), tr) := by
  unfold queryDatabaseData
  rw [if_neg (by simp [hdb])]
  simp only [hgen, hclean]

/-! ## Orchestrator claims -/

/-- C1.  A fault in the generation/validation chain DOES escape
`query_database_data` as a raised exception: `full_chain.invoke` runs
before the `try` block, so the claimed all-failure-mode containment is
false. -/
theorem c1_counterexample :
    (queryDatabaseData envGenFail).1 =
      .error (("LLM connection refused").toList) := rfl

/-- C1 (amended).  Whenever the generation/validation chain returns
normally, `query_database_data` returns a string value for every behaviour
of the remaining pipeline (debugger echo, splitting, execution, column
inference): faults arising inside the `try` block are converted into a
structured-text payload, and a missing connection yields the advisory
string. -/
theorem c1_guarded_faults_contained (env : Env) (raw : Str)
    (hgen : env.gen = .ok raw) :
    ∃ s, (queryDatabaseData env).1 = .ok s := by
  unfold queryDatabaseData
  by_cases hdb : env.dbConnected = false
  · rw [if_pos hdb]
    exact ⟨_, rfl⟩
  · rw [if_neg hdb]
    obtain ⟨q, hq⟩ := Option.isSome_iff_exists.mp (cleanLangchainQuery_isSome raw)
    simp only [hgen, hq]
    rcases htb : tryBody env q with ⟨res, tr⟩
    match res with
    | .ok (.earlyRet s) => exact ⟨s, by simp [htb]⟩
    | .ok (.resp r) => exact ⟨jsonDumps r, by simp [htb]⟩
    | .error e => exact ⟨jsonDumps (.err e), by simp [htb]⟩

/-- Witness for C1 (amended): a healthy environment returns a value. -/
theorem c1_witness : ∃ s, (queryDatabaseData envGenOk).1 = .ok s :=
  c1_guarded_faults_contained envGenOk (("SELECT 1").toList) rfl

/-- C2.  Envelope shape: one statement yields the single
`{"result", "columns"}` object; two or more yield a list with exactly one
entry per statement surviving the `BEGIN`/`COMMIT` prefix filter, and only
those statements are executed.  The single-statement branch applies no
filter. -/
theorem c2_envelope_shape (env : Env) (raw q : Str)
    (hdb : env.dbConnected = true) (hgen : env.gen = .ok raw)
    (hclean : cleanLangchainQuery raw = some q)
    (hmsg : env.sendMsg = .ok ()) :
    (∀ stmt r, env.sqlSplit q = [stmt] → env.run stmt = .ok r →
      queryDatabaseData env =
        (.ok (jsonDumps (.single r
          (extractColumnsFromQuery env.llm env.parse q).columns)), [stmt])) ∧
    (∀ (sts : List Str) (f : Str → Str), env.sqlSplit q = sts →
      2 ≤ sts.length → (∀ s, env.run s = .ok (f s)) →
      queryDatabaseData env =
        (.ok (jsonDumps (.multi ((sts.filter nonTx).map fun s =>
          (f s, (extractColumnsFromQuery env.llm env.parse s).columns)))),
         sts.filter nonTx)) := by
  constructor
  · intro stmt r hsplit hrun
    rw [queryDatabaseData_eq hdb hgen hclean, tryBody_sendOk hmsg,
      tryBodyCore_single hsplit hrun]
  · intro sts f hsplit hlen hrun
    rw [queryDatabaseData_eq hdb hgen hclean, tryBody_sendOk hmsg,
      tryBodyCore_else hsplit hlen (runMulti_all_ok hrun sts)]
    simp [Except.map]

/-- Witness for C2: on `["BEGIN", "SELECT 1", "COMMIT"]` only `"SELECT 1"`
is executed and the output list has exactly one entry. -/
theorem c2_witness :
    queryDatabaseData envBsc =
      (.ok (jsonDumps (.multi [((("SELECT 1").toList),
        (extractColumnsFromQuery envBsc.llm envBsc.parse
          (("SELECT 1").toList)).columns)])),
       [("SELECT 1").toList]) :=
  ((c2_envelope_shape envBsc (("SELECT 1").toList) (("SELECT 1").toList)
    rfl rfl (by decide) rfl).2
    [("BEGIN").toList, ("SELECT 1").toList, ("COMMIT").toList]
    id rfl (by decide) (fun _ => rfl)).trans (by rfl)

/-- C3.  An execution fault replaces the whole payload by the
`{"result": <error>}` object (no columns key): in the single-statement case
directly; in the multi-statement case the loop stops at the failing
statement — the trace shows that exactly the surviving earlier statements
and the failing one were executed, and none after it — and earlier results
are discarded. -/
theorem c3_execution_fault (env : Env) (raw q e : Str)
    (hdb : env.dbConnected = true) (hgen : env.gen = .ok raw)
    (hclean : cleanLangchainQuery raw = some q)
    (hmsg : env.sendMsg = .ok ()) :
    (∀ stmt, env.sqlSplit q = [stmt] → env.run stmt = .error e →
      queryDatabaseData env = (.ok (jsonDumps (.err e)), [stmt])) ∧
    (∀ (pre : List Str) (s : Str) (post : List Str),
      env.sqlSplit q = pre ++ s :: post → 2 ≤ (pre ++ s :: post).length →
      (∀ t ∈ pre, nonTx t = true → ∃ r, env.run t = .ok r) →
      nonTx s = true → env.run s = .error e →
      queryDatabaseData env =
        (.ok (jsonDumps (.err e)), pre.filter nonTx ++ [s])) := by
  constructor
  · intro stmt hsplit hrun
    rw [queryDatabaseData_eq hdb hgen hclean, tryBody_sendOk hmsg,
      tryBodyCore_single_err hsplit hrun]
  · intro pre s post hsplit hlen hpre hs herr
    rw [queryDatabaseData_eq hdb hgen hclean, tryBody_sendOk hmsg,
      tryBodyCore_else hsplit hlen (runMulti_first_err hs herr pre hpre)]
    simp [Except.map]

/-- Witness for C3: the first failing statement aborts the batch, the
second statement is never executed, and the payload is the error object. -/
theorem c3_witness :
    queryDatabaseData envRunFail =
      (.ok (jsonDumps (.err (("no such table").toList))),
       [("SELECT 1").toList]) :=
  ((c3_execution_fault envRunFail (("SELECT 1").toList) (("SELECT 1").toList)
    (("no such table").toList) rfl rfl (by decide) rfl).2
    [] (("SELECT 1").toList) [("SELECT 2").toList]
    rfl (by decide) (by simp) (by decide) rfl).trans (by rfl)

/-- C10.  In the multi-statement branch, when every split statement is
filtered out by the `BEGIN`/`COMMIT` prefix test, the payload is the
serialized empty list `"[]"` — not the `"No valid query to execute"`
advisory and not an error object. -/
theorem c10_all_filtered (env : Env) (raw q : Str) (sts : List Str)
    (hdb : env.dbConnected = true) (hgen : env.gen = .ok raw)
    (hclean : cleanLangchainQuery raw = some q)
    (hmsg : env.sendMsg = .ok ())
    (hsplit : env.sqlSplit q = sts) (hlen : 2 ≤ sts.length)
    (hskip : ∀ s ∈ sts, nonTx s = false) :
    queryDatabaseData env = (.ok (("[]").toList), []) ∧
    (("[]").toList : Str) ≠ noValidMsg := by
  refine ⟨?_, by decide⟩
  rw [queryDatabaseData_eq hdb hgen hclean, tryBody_sendOk hmsg,
    tryBodyCore_else hsplit hlen (runMulti_all_skip sts hskip)]
  rfl

/-- Witness for C10 at the split `["BEGIN", "COMMIT"]`. -/
theorem c10_witness : queryDatabaseData envTxOnly = (.ok (("[]").toList), []) :=
  (c10_all_filtered envTxOnly (("x").toList) (("x").toList)
    [("BEGIN").toList, ("COMMIT").toList]
    rfl rfl (by decide) rfl rfl (by decide) (by decide)).1

end PurrSQL
